import Mathlib

/-!
Shallow embedding of the `Clever/configure` Go package (`src/configure.go`,
current version: string and bool fields).  `Configure` binds a caller-supplied
struct from command-line flags and, when no flag was found, from a JSON blob
given as the first positional argument, then validates required fields.

Modelling conventions:
* Go machine values that matter to the claims are `String` and `Bool`; a
  float64 or any other field type is represented by the payload-free
  constructors `GoVal.vfloat` / `GoVal.vother` (the code rejects both before
  ever reading them).
* The Go `flag` package (Go 1.21 semantics) is embedded: flag registration
  (`FlagSet.String` / `FlagSet.Bool` via `FlagSet.Var`, including its panics),
  `FlagSet.Parse` over `-name=value` / `-name value` / `--` / positional
  tokens, and `strconv.ParseBool`.
* `encoding/json` decoding of the positional argument into
  `map[string]interface{}` is abstracted as a parameter
  `decode : String → Option (List (String × JVal))` (`none` = decode error);
  decoded Go maps have unique keys, lookup is first-match.
* Go panics (reflection panic on `NumField`, `flag` registration panics, the
  unchecked `interface{}` type assertions in the JSON fallback) are the
  `Outcome.panicked` result; returned `error` values are `Outcome.err`, which
  also carries the state of the caller's record at return time.
* The process-global `flag.CommandLine` parsed bit is the `globalParsed`
  argument; `ConfigureSt` additionally returns that bit after the call (the
  code only reads it and parses a freshly created `FlagSet`).
-/

deriving instance DecidableEq for Except

/-- Kinds of Go field types as seen by `reflect.Kind` in the code. -/
inductive GoKind where
  | kstring
  | kbool
  | kfloat
  | kother
deriving DecidableEq, Repr

/-- Value of a single struct field.  `vfloat`/`vother` stand for any
floating-point / any other unsupported field type; the code errors on their
kind before reading a value, so they carry no payload. -/
inductive GoVal where
  | vstr (s : String)
  | vbool (b : Bool)
  | vfloat
  | vother
deriving DecidableEq, Repr

/-- Kind of a field value, mirroring `typedAttr.Type.Kind()`. -/
def GoVal.kind : GoVal → GoKind
  | .vstr _ => .kstring
  | .vbool _ => .kbool
  | .vfloat => .kfloat
  | .vother => .kother

/-- One declared field of the configuration struct: whether reflection can set
it (`CanSet`, false for unexported fields), its `config` struct tag (the empty
string when the tag is absent, as `Tag.Get` returns), and its current value. -/
structure GoField where
  canSet : Bool
  tag : String
  val : GoVal
deriving DecidableEq, Repr

/-- The value an argument to `Configure` points at (or is). -/
inductive GoValue where
  | structV (fields : List GoField)
  | otherV
deriving DecidableEq, Repr

/-- The argument passed to `Configure`: a pointer to some value, or a
non-pointer value (struct or not). -/
inductive ConfigArg where
  | ptrTo (v : GoValue)
  | nonPtr (v : GoValue)
deriving DecidableEq, Repr

/-- Errors produced by `FlagSet.Parse` (Go `flag` package). -/
inductive FParseErr where
  | badSyntax (s : String)
  | helpRequested
  | notDefined (name : String)
  | invalidBool (name value : String)
  | needsArg (name : String)
deriving DecidableEq, Repr

/-- The error taxonomy of the package (the `Err*` variables plus the
`fmt.Errorf` missing-fields error and propagated flag-parse errors). -/
inductive ConfErr where
  | stringAndBoolOnly
  | boolCannotBeRequired
  | notReference
  | structOnly
  | noTagValue
  | tooManyTagValues
  | flagParsedErr
  | invalidJSON
  | structTagInvalidOption
  | missingRequiredFields (names : List String)
  | parseFailure (e : FParseErr)
deriving DecidableEq, Repr

/-- Internal failure of a phase: a returned error or a Go panic. -/
inductive Fail where
  | ferr (e : ConfErr)
  | fpanic (msg : String)
deriving DecidableEq, Repr

/-- Result of `Configure`: success or error (each carrying the state of the
caller-owned argument when the call returns), or a Go panic. -/
inductive Outcome where
  | ok (arg : ConfigArg)
  | err (e : ConfErr) (arg : ConfigArg)
  | panicked (msg : String)
deriving DecidableEq, Repr

/-- A JSON value as decoded by `encoding/json` into `interface{}`: string,
bool, number (payload modelled as an integer; only its type matters here),
null, or any nested object/array. -/
inductive JVal where
  | jstr (s : String)
  | jbool (b : Bool)
  | jnum (n : Int)
  | jnull
  | jother
deriving DecidableEq, Repr

/-- The `requiredTagKey` constant of the package. -/
def requiredTagKey : String := "required"

/-- The `missingValuesErrTemplate` constant of the package. -/
def missingValuesErrTemplate : String := "Missing required fields: %s"

/-- Go `fmt` rendering of a `[]string` with the `%s` verb: `[a b c]`. -/
def goSliceString (xs : List String) : String :=
  "[" ++ String.intercalate " " xs ++ "]"

/-- Substitution of the single `%s` verb of a format string by an argument,
over character lists (the behaviour of `fmt.Errorf` on the template above). -/
def subst1 : List Char → List Char → List Char
  | [], _ => []
  | '%' :: 's' :: rest, arg => arg ++ rest
  | c :: rest, arg => c :: subst1 rest arg

/-- The `fmt.Errorf` formatting used for the missing-fields error: the `%s`
verb of the template replaced by the rendered argument. -/
def goFormat1 (template arg : String) : String :=
  String.mk (subst1 template.data arg.data)

/-- Message text of each error, from the `errors.New` literals and the
`fmt.Errorf` call in the code. -/
def errMessage : ConfErr → String
  | .stringAndBoolOnly => "Only string/bool values are allowed in a config struct."
  | .boolCannotBeRequired => "Boolean attributes cannot be required"
  | .notReference => "The config struct must be a pointer to a struct."
  | .structOnly => "Config object must be a struct."
  | .noTagValue => "Config object attributes must have a \x27config\x27 tag value."
  | .tooManyTagValues => "Config object attributes can only have a key and optional required attribute."
  | .flagParsedErr => "The flag library cannot be used in conjunction with configure"
  | .invalidJSON => "Invalid JSON found in arguments."
  | .structTagInvalidOption => "Only \x27required\x27 is a config option."
  | .missingRequiredFields names => goFormat1 missingValuesErrTemplate (goSliceString names)
  | .parseFailure _ => "flag parse error"

/-- Message of the reflection panic raised by `config.NumField()` when the
pointer target is not a struct. -/
def numFieldPanicMsg : String :=
  "reflect: call of reflect.Value.NumField on non-struct Value"

/-- Message of the panic raised by the unchecked `.(string)` type assertion in
the JSON fallback. -/
def strAssertPanicMsg : String :=
  "interface conversion: interface \x7b\x7d is not string"

/-- Message of the panic raised by the unchecked `.(bool)` type assertion in
the JSON fallback. -/
def boolAssertPanicMsg : String :=
  "interface conversion: interface \x7b\x7d is not bool"

/-- Message of the nil-map-entry dereference panic (unreachable after a
successful registration pass). -/
def nilDerefPanicMsg : String :=
  "runtime error: invalid memory address or nil pointer dereference"

/-- Splitting of a character list at every comma, with the accumulator of the
current token held reversed (the behaviour of `strings.Split(s, ",")`). -/
def splitOnCommaAux : List Char → List Char → List (List Char)
  | [], acc => [acc.reverse]
  | c :: cs, acc =>
    if c = ',' then acc.reverse :: splitOnCommaAux cs []
    else splitOnCommaAux cs (c :: acc)

/-- The call `strings.Split(s, ",")`: the comma-separated tokens of `s`
(`[""]` for the empty string, as in Go). -/
def goSplitComma (s : String) : List String :=
  (splitOnCommaAux s.data []).map String.mk

/-- The `parseTagKey` function: parses a `config` struct tag into the
parameter name and the required marker.  Pure translation of the Go function
(empty tag, then `strings.Split` on a comma with cases 2 / 1 / default). -/
def parseTagKey (tag : String) : Except ConfErr (String × Bool) :=
  if tag = "" then .error .noTagValue
  else
    match goSplitComma tag with
    | [a, b] => if b ≠ requiredTagKey then .error .structTagInvalidOption else .ok (a, true)
    | [a] => .ok (a, false)
    | _ => .error .tooManyTagValues

/-- Current value of a registered flag (the targets of the
`flagStringValueMap` / `flagBoolValueMap` pointers). -/
inductive FlagVal where
  | str (s : String)
  | boolv (b : Bool)
deriving DecidableEq, Repr

/-- The registered flags of the `configure` FlagSet, in registration order.
Keys are unique by construction (duplicate registration panics). -/
abbrev FlagMap := List (String × FlagVal)

/-- Lookup of a flag by name (Go map access; keys are unique). -/
def lookupFlag : FlagMap → String → Option FlagVal
  | [], _ => none
  | (k, v) :: m, name => if k = name then some v else lookupFlag m name

/-- Update of the flag value stored under a name (Go `flag.Value.Set` through
the stored pointer; with unique keys this touches exactly one entry). -/
def setVal : FlagMap → String → FlagVal → FlagMap
  | [], _, _ => []
  | (k, v) :: m, name, nv =>
    if k = name then (k, nv) :: setVal m name nv else (k, v) :: setVal m name nv

/-- The check `strings.HasPrefix(name, "-")`. -/
def goHasPrefixDash (name : String) : Bool :=
  match name.data with
  | '-' :: _ => true
  | _ => false

/-- The check `strings.Contains(name, "=")`. -/
def goContainsEq (name : String) : Bool :=
  name.data.any (fun c => c == '=')

/-- Registration of one flag, mirroring Go 1.21 `FlagSet.Var`: panics when the
name begins with `-`, contains `=`, or is already registered; otherwise the
flag is appended with its default value. -/
def addFlag (m : FlagMap) (name : String) (dflt : FlagVal) : Except Fail FlagMap :=
  if goHasPrefixDash name then .error (.fpanic "flag begins with -")
  else if goContainsEq name then .error (.fpanic "flag contains =")
  else if (lookupFlag m name).isSome then .error (.fpanic "flag redefined")
  else .ok (m ++ [(name, dflt)])

/-- Shape of one command-line token as classified by `FlagSet.parseOne`. -/
inductive TokForm where
  | stop
  | terminator
  | bad
  | flag (name : String) (hasValue : Bool) (value : String)
deriving DecidableEq, Repr

/-- Classification of a single token by `FlagSet.parseOne`: tokens shorter
than 2 characters or not starting with `-` stop flag parsing; `--` alone is
consumed and stops it; after stripping one or two minuses the name must not be
empty or start with `-`/`=`; the first `=` splits name from value. -/
def splitFlagToken (cs : List Char) : TokForm :=
  match cs with
  | '-' :: c :: rest =>
    if c = '-' ∧ rest = [] then .terminator
    else
      let nameChars := if c = '-' then rest else c :: rest
      match nameChars with
      | [] => .bad
      | n0 :: _ =>
        if n0 = '-' ∨ n0 = '=' then .bad
        else
          let nm := nameChars.takeWhile (fun x => x != '=')
          let hasV := nameChars.any (fun x => x == '=')
          let v := (nameChars.dropWhile (fun x => x != '=')).drop 1
          .flag (String.mk nm) hasV (String.mk v)
  | _ => .stop

/-- The function `strconv.ParseBool`, used by bool flags. -/
def goParseBool (s : String) : Option Bool :=
  if s = "1" ∨ s = "t" ∨ s = "T" ∨ s = "true" ∨ s = "TRUE" ∨ s = "True" then some true
  else if s = "0" ∨ s = "f" ∨ s = "F" ∨ s = "false" ∨ s = "FALSE" ∨ s = "False" then some false
  else none

/-- The parse loop of `FlagSet.Parse` (with `ContinueOnError`).  The `Option
String` argument is a string flag still waiting for its value from the next
token (the `-name value` form).  Returns the final flag values and the
remaining (positional) arguments. -/
def parseLoopAux : FlagMap → Option String → List String → Except FParseErr (FlagMap × List String)
  | _, some pending, [] => .error (.needsArg pending)
  | m, some pending, v :: rest => parseLoopAux (setVal m pending (.str v)) none rest
  | m, none, [] => .ok (m, [])
  | m, none, s :: rest =>
    match splitFlagToken s.data with
    | .stop => .ok (m, s :: rest)
    | .terminator => .ok (m, rest)
    | .bad => .error (.badSyntax s)
    | .flag name hasV v =>
      match lookupFlag m name with
      | none =>
        if name = "help" ∨ name = "h" then .error .helpRequested
        else .error (.notDefined name)
      | some (.boolv _) =>
        if hasV then
          match goParseBool v with
          | some b => parseLoopAux (setVal m name (.boolv b)) none rest
          | none => .error (.invalidBool name v)
        else parseLoopAux (setVal m name (.boolv true)) none rest
      | some (.str _) =>
        if hasV then parseLoopAux (setVal m name (.str v)) none rest
        else parseLoopAux m (some name) rest

/-- The call `configFlags.Parse(os.Args[1:])`. -/
def parseLoop (m : FlagMap) (args : List String) : Except FParseErr (FlagMap × List String) :=
  parseLoopAux m none args

/-- Handling of one field by the flag-creation loop of `Configure`: the
`CanSet` check, the string/bool kind check, `parseTagKey`, and the
registration of a string flag with default `""` or a bool flag whose default
is the field's current value. -/
def regField (f : GoField) (m : FlagMap) : Except Fail FlagMap :=
  if f.canSet = false then .error (.ferr .notReference)
  else
    match f.val with
    | .vstr _ =>
      match parseTagKey f.tag with
      | .error e => .error (.ferr e)
      | .ok (tagVal, _) => addFlag m tagVal (.str "")
    | .vbool b =>
      match parseTagKey f.tag with
      | .error e => .error (.ferr e)
      | .ok (tagVal, _) => addFlag m tagVal (.boolv b)
    | .vfloat => .error (.ferr .stringAndBoolOnly)
    | .vother => .error (.ferr .stringAndBoolOnly)

/-- The flag-creation loop of `Configure` over all fields. -/
def registerFlags : List GoField → FlagMap → Except Fail FlagMap
  | [], m => .ok m
  | f :: fs, m =>
    match regField f m with
    | .error e => .error e
    | .ok m2 => registerFlags fs m2

/-- The second loop of `Configure` (grab values from the flag maps): a string
field is overwritten and counts as a found flag only when the parsed value is
non-empty; a bool field counts as found only when the parsed value differs
from the field's current value and is always overwritten.  Returns the updated
fields and the final `flagFound`. -/
def bindFlags (m : FlagMap) : List GoField → Bool → Except Fail (List GoField × Bool)
  | [], found => .ok ([], found)
  | f :: fs, found =>
    match parseTagKey f.tag with
    | .error e => .error (.ferr e)
    | .ok (tagVal, _) =>
      match f.val with
      | .vstr _ =>
        match lookupFlag m tagVal with
        | some (.str v) =>
          if v ≠ "" then
            match bindFlags m fs true with
            | .error e => .error e
            | .ok (fs2, fd) => .ok ({ f with val := .vstr v } :: fs2, fd)
          else
            match bindFlags m fs found with
            | .error e => .error e
            | .ok (fs2, fd) => .ok (f :: fs2, fd)
        | _ => .error (.fpanic nilDerefPanicMsg)
      | .vbool b =>
        match lookupFlag m tagVal with
        | some (.boolv v) =>
          match bindFlags m fs (found || (v != b)) with
          | .error e => .error e
          | .ok (fs2, fd) => .ok ({ f with val := .vbool v } :: fs2, fd)
        | _ => .error (.fpanic nilDerefPanicMsg)
      | .vfloat =>
        match bindFlags m fs found with
        | .error e => .error e
        | .ok (fs2, fd) => .ok (f :: fs2, fd)
      | .vother =>
        match bindFlags m fs found with
        | .error e => .error e
        | .ok (fs2, fd) => .ok (f :: fs2, fd)

/-- Lookup of a key in the decoded JSON object (Go map access; decoded maps
have unique keys). -/
def jlookup : List (String × JVal) → String → Option JVal
  | [], _ => none
  | (k, v) :: kvs, key => if k = key then some v else jlookup kvs key

/-- The JSON-application loop of `Configure`: for each field whose parameter
name is a key of the decoded object, the value is written through an unchecked
type assertion (`.(string)` / `.(bool)`), which panics when the JSON value has
a different type. -/
def applyJson (kvs : List (String × JVal)) : List GoField → Except Fail (List GoField)
  | [] => .ok []
  | f :: fs =>
    match parseTagKey f.tag with
    | .error e => .error (.ferr e)
    | .ok (tagVal, _) =>
      match jlookup kvs tagVal with
      | none =>
        match applyJson kvs fs with
        | .error e => .error e
        | .ok fs2 => .ok (f :: fs2)
      | some jv =>
        match f.val with
        | .vstr _ =>
          match jv with
          | .jstr s =>
            match applyJson kvs fs with
            | .error e => .error e
            | .ok fs2 => .ok ({ f with val := .vstr s } :: fs2)
          | _ => .error (.fpanic strAssertPanicMsg)
        | .vbool _ =>
          match jv with
          | .jbool b =>
            match applyJson kvs fs with
            | .error e => .error e
            | .ok fs2 => .ok ({ f with val := .vbool b } :: fs2)
          | _ => .error (.fpanic boolAssertPanicMsg)
        | .vfloat =>
          match applyJson kvs fs with
          | .error e => .error e
          | .ok fs2 => .ok (f :: fs2)
        | .vother =>
          match applyJson kvs fs with
          | .error e => .error e
          | .ok fs2 => .ok (f :: fs2)

/-- The JSON fallback of `Configure`: consulted only when no flag was found
and the first positional argument is non-empty; a decode failure is
`ErrInvalidJSON`. -/
def jsonPhase (decode : String → Option (List (String × JVal))) (arg0 : String)
    (found : Bool) (fields : List GoField) : Except Fail (List GoField) :=
  if found = false ∧ arg0 ≠ "" then
    match decode arg0 with
    | none => .error (.ferr .invalidJSON)
    | some kvs => applyJson kvs fields
  else .ok fields

/-- The validation loop of `Configure`: walks the fields in declaration order,
appending the parameter name of every required string field whose value is
still empty, and returning `ErrBoolCannotBeRequired` as soon as a required
bool field is reached. -/
def validate : List GoField → List String → Except ConfErr (List String)
  | [], acc => .ok acc
  | f :: fs, acc =>
    match parseTagKey f.tag with
    | .error e => .error e
    | .ok (tagKey, required) =>
      if required then
        match f.val with
        | .vstr s => validate fs (if s = "" then acc ++ [tagKey] else acc)
        | .vbool _ => .error .boolCannotBeRequired
        | .vfloat => validate fs acc
        | .vother => validate fs acc
      else validate fs acc

/-- Completion of validation: a non-empty collection of missing required
fields is the `fmt.Errorf` missing-fields error, otherwise success. -/
def finishValidate (fields : List GoField) : Outcome :=
  match validate fields [] with
  | .error e => .err e (.ptrTo (.structV fields))
  | .ok missing =>
    if missing.length > 0 then
      .err (.missingRequiredFields missing) (.ptrTo (.structV fields))
    else .ok (.ptrTo (.structV fields))

/-- The required-string-fields of a record that are still empty, in
declaration order (specification-level recomputation used to characterise the
validator's output). -/
def missingOf (fs : List GoField) : List String :=
  fs.filterMap (fun f =>
    match parseTagKey f.tag, f.val with
    | .ok (k, true), .vstr "" => some k
    | _, _ => none)

/-- The body of `Configure` once the argument is known to be a pointer to a
struct: flag registration, argument parsing, flag binding, JSON fallback,
validation. -/
def configurePipeline (decode : String → Option (List (String × JVal)))
    (args : List String) (fields : List GoField) : Outcome :=
  match registerFlags fields [] with
  | .error (.ferr e) => .err e (.ptrTo (.structV fields))
  | .error (.fpanic msg) => .panicked msg
  | .ok m0 =>
    match parseLoop m0 args with
    | .error pe => .err (.parseFailure pe) (.ptrTo (.structV fields))
    | .ok (m, positionals) =>
      match bindFlags m fields false with
      | .error (.ferr e) => .err e (.ptrTo (.structV fields))
      | .error (.fpanic msg) => .panicked msg
      | .ok (fields1, found) =>
        match jsonPhase decode (positionals.headD "") found fields1 with
        | .error (.ferr e) => .err e (.ptrTo (.structV fields1))
        | .error (.fpanic msg) => .panicked msg
        | .ok fields2 => finishValidate fields2

/-- The `Configure` function.  `decode` abstracts `encoding/json` decoding of
the positional argument, `globalParsed` is the process-global
`flag.Parsed()` bit, `args` is `os.Args[1:]`, `cfg` the argument. -/
def Configure (decode : String → Option (List (String × JVal))) (globalParsed : Bool)
    (args : List String) (cfg : ConfigArg) : Outcome :=
  if globalParsed then .err .flagParsedErr cfg
  else
    match cfg with
    | .nonPtr v => .err .structOnly (.nonPtr v)
    | .ptrTo .otherV => .panicked numFieldPanicMsg
    | .ptrTo (.structV fields) => configurePipeline decode args fields

/-- The `Configure` call with the process-global parsed bit threaded through:
the code reads `flag.Parsed()` and then parses only its own
`flag.NewFlagSet`, never the global `flag.CommandLine`, so the global bit is
returned unchanged. -/
def ConfigureSt (decode : String → Option (List (String × JVal)))
    (args : List String) (cfg : ConfigArg) (globalParsed : Bool) : Outcome × Bool :=
  (Configure decode globalParsed args cfg, globalParsed)

/-- Observable shape of a field that binding never changes: its tag and the
kind of its value. -/
def tagKind (f : GoField) : String × GoKind :=
  (f.tag, f.val.kind)

theorem lookupFlag_append_of_none : ∀ (a b : FlagMap) (k : String),
    lookupFlag a k = none → lookupFlag (a ++ b) k = lookupFlag b k
  | [], _, _, _ => rfl
  | (k0, v0) :: m, b, k, h => by
    simp only [lookupFlag] at h
    by_cases hk : k0 = k
    · simp [hk] at h
    · simpa [lookupFlag, hk] using lookupFlag_append_of_none m b k (by simpa [hk] using h)

theorem addFlag_ok (m : FlagMap) (name : String) (d : FlagVal) (m2 : FlagMap)
    (h : addFlag m name d = .ok m2) :
    lookupFlag m name = none ∧ m2 = m ++ [(name, d)] := by
  unfold addFlag at h
  split at h
  · simp at h
  split at h
  · simp at h
  split at h
  · simp at h
  next h3 =>
    refine ⟨Option.not_isSome_iff_eq_none.mp (by simpa using h3), ?_⟩
    simpa using h.symm

theorem regField_ok (f : GoField) (m m2 : FlagMap) (h : regField f m = .ok m2) :
    f.canSet = true ∧
    ∃ k r, parseTagKey f.tag = .ok (k, r) ∧ lookupFlag m k = none ∧
      ((∃ s, f.val = .vstr s ∧ m2 = m ++ [(k, .str "")]) ∨
       (∃ b, f.val = .vbool b ∧ m2 = m ++ [(k, .boolv b)])) := by
  unfold regField at h
  split at h
  · simp at h
  next hcs =>
    refine ⟨by simpa using hcs, ?_⟩
    cases hval : f.val with
    | vstr s =>
      rw [hval] at h
      cases hpk : parseTagKey f.tag with
      | error e => rw [hpk] at h; simp at h
      | ok kr =>
        obtain ⟨k, r⟩ := kr
        rw [hpk] at h
        obtain ⟨hnone, hm2⟩ := addFlag_ok m k (.str "") m2 h
        exact ⟨k, r, rfl, hnone, Or.inl ⟨s, rfl, hm2⟩⟩
    | vbool b =>
      rw [hval] at h
      cases hpk : parseTagKey f.tag with
      | error e => rw [hpk] at h; simp at h
      | ok kr =>
        obtain ⟨k, r⟩ := kr
        rw [hpk] at h
        obtain ⟨hnone, hm2⟩ := addFlag_ok m k (.boolv b) m2 h
        exact ⟨k, r, rfl, hnone, Or.inr ⟨b, rfl, hm2⟩⟩
    | vfloat => rw [hval] at h; simp at h
    | vother => rw [hval] at h; simp at h

theorem registerFlags_prefix : ∀ (fs : List GoField) (m M : FlagMap),
    registerFlags fs m = .ok M → ∃ rest, M = m ++ rest
  | [], m, M, h => ⟨[], by simpa [registerFlags] using (by simpa [registerFlags] using h.symm)⟩
  | f :: fs, m, M, h => by
    simp only [registerFlags] at h
    cases hreg : regField f m with
    | error e => rw [hreg] at h; simp at h
    | ok m2 =>
      rw [hreg] at h
      obtain ⟨rest, hrest⟩ := registerFlags_prefix fs m2 M h
      obtain ⟨-, k, r, -, -, hcase⟩ := regField_ok f m m2 hreg
      rcases hcase with ⟨s, -, hm2⟩ | ⟨b, -, hm2⟩ <;>
        exact ⟨_, by rw [hrest, hm2, List.append_assoc]⟩

theorem registerFlags_append (xs ys : List GoField) (m : FlagMap) :
    registerFlags (xs ++ ys) m =
      match registerFlags xs m with
      | .error e => .error e
      | .ok m2 => registerFlags ys m2 := by
  induction xs generalizing m with
  | nil => rfl
  | cons f fs ih =>
    simp only [List.cons_append, registerFlags]
    cases regField f m with
    | error e => rfl
    | ok m2 => exact ih m2

theorem registerFlags_tags_ok : ∀ (fs : List GoField) (m M : FlagMap),
    registerFlags fs m = .ok M → ∀ f ∈ fs, ∃ k r, parseTagKey f.tag = .ok (k, r)
  | [], _, _, _, f, hf => absurd hf (List.not_mem_nil f)
  | g :: fs, m, M, h, f, hf => by
    simp only [registerFlags] at h
    cases hreg : regField g m with
    | error e => rw [hreg] at h; simp at h
    | ok m2 =>
      rw [hreg] at h
      rcases List.mem_cons.mp hf with hfg | hftail
      · obtain ⟨-, k, r, hpk, -, -⟩ := regField_ok g m m2 hreg
        exact ⟨k, r, hfg ▸ hpk⟩
      · exact registerFlags_tags_ok fs m2 M h f hftail

theorem registerFlags_bool_default : ∀ (fs : List GoField) (m M : FlagMap) (f : GoField) (b : Bool),
    registerFlags fs m = .ok M → f ∈ fs → f.val = .vbool b →
    ∃ k r, parseTagKey f.tag = .ok (k, r) ∧ lookupFlag M k = some (.boolv b)
  | [], _, _, f, _, _, hf, _ => absurd hf (List.not_mem_nil f)
  | g :: fs, m, M, f, b, h, hf, hv => by
    simp only [registerFlags] at h
    cases hreg : regField g m with
    | error e => rw [hreg] at h; simp at h
    | ok m2 =>
      rw [hreg] at h
      rcases List.mem_cons.mp hf with hfg | hftail
      · subst hfg
        obtain ⟨-, k, r, hpk, hnone, hcase⟩ := regField_ok f m m2 hreg
        rcases hcase with ⟨s, hvs, -⟩ | ⟨b2, hvb, hm2⟩
        · rw [hv] at hvs; cases hvs
        · rw [hv] at hvb
          cases hvb
          obtain ⟨rest, hrest⟩ := registerFlags_prefix fs m2 M h
          refine ⟨k, r, hpk, ?_⟩
          rw [hrest, hm2, List.append_assoc,
            lookupFlag_append_of_none m _ k hnone]
          simp [lookupFlag]
      · exact registerFlags_bool_default fs m2 M f b h hftail hv

theorem bindFlags_tagKind : ∀ (fs : List GoField) (m : FlagMap) (fd fd2 : Bool)
    (fs2 : List GoField), bindFlags m fs fd = .ok (fs2, fd2) →
    fs2.map tagKind = fs.map tagKind
  | [], _, _, _, fs2, h => by
    simp only [bindFlags] at h
    cases h
    rfl
  | f :: fs, m, fd, fd2, fs2, h => by
    simp only [bindFlags] at h
    cases hpk : parseTagKey f.tag with
    | error e => simp only [hpk] at h; exact Except.noConfusion h
    | ok kr =>
      obtain ⟨tagVal, r⟩ := kr
      simp only [hpk] at h
      cases hval : f.val with
      | vstr s =>
        simp only [hval] at h
        cases hlk : lookupFlag m tagVal with
        | none => simp only [hlk] at h; exact Except.noConfusion h
        | some fv =>
          cases fv with
          | boolv b => simp only [hlk] at h; exact Except.noConfusion h
          | str v =>
            simp only [hlk] at h
            by_cases hv : v ≠ ""
            · simp only [if_pos hv] at h
              cases hrec : bindFlags m fs true with
              | error e => simp only [hrec] at h; exact Except.noConfusion h
              | ok p =>
                obtain ⟨l, fd3⟩ := p
                simp only [hrec, Except.ok.injEq, Prod.mk.injEq] at h
                obtain ⟨hfs, -⟩ := h
                rw [← hfs]
                have htail := bindFlags_tagKind fs m true fd3 l hrec
                simp [tagKind, GoVal.kind, hval, htail]
            · simp only [if_neg hv] at h
              cases hrec : bindFlags m fs fd with
              | error e => simp only [hrec] at h; exact Except.noConfusion h
              | ok p =>
                obtain ⟨l, fd3⟩ := p
                simp only [hrec, Except.ok.injEq, Prod.mk.injEq] at h
                obtain ⟨hfs, -⟩ := h
                rw [← hfs]
                have htail := bindFlags_tagKind fs m fd fd3 l hrec
                simp [tagKind, htail]
      | vbool b =>
        simp only [hval] at h
        cases hlk : lookupFlag m tagVal with
        | none => simp only [hlk] at h; exact Except.noConfusion h
        | some fv =>
          cases fv with
          | str v => simp only [hlk] at h; exact Except.noConfusion h
          | boolv v =>
            simp only [hlk] at h
            cases hrec : bindFlags m fs (fd || (v != b)) with
            | error e => simp only [hrec] at h; exact Except.noConfusion h
            | ok p =>
              obtain ⟨l, fd3⟩ := p
              simp only [hrec, Except.ok.injEq, Prod.mk.injEq] at h
              obtain ⟨hfs, -⟩ := h
              rw [← hfs]
              have htail := bindFlags_tagKind fs m (fd || (v != b)) fd3 l hrec
              simp [tagKind, GoVal.kind, hval, htail]
      | vfloat =>
        simp only [hval] at h
        cases hrec : bindFlags m fs fd with
        | error e => simp only [hrec] at h; exact Except.noConfusion h
        | ok p =>
          obtain ⟨l, fd3⟩ := p
          simp only [hrec, Except.ok.injEq, Prod.mk.injEq] at h
          obtain ⟨hfs, -⟩ := h
          rw [← hfs]
          have htail := bindFlags_tagKind fs m fd fd3 l hrec
          simp [tagKind, htail]
      | vother =>
        simp only [hval] at h
        cases hrec : bindFlags m fs fd with
        | error e => simp only [hrec] at h; exact Except.noConfusion h
        | ok p =>
          obtain ⟨l, fd3⟩ := p
          simp only [hrec, Except.ok.injEq, Prod.mk.injEq] at h
          obtain ⟨hfs, -⟩ := h
          rw [← hfs]
          have htail := bindFlags_tagKind fs m fd fd3 l hrec
          simp [tagKind, htail]

theorem applyJson_tagKind : ∀ (fs : List GoField) (kvs : List (String × JVal))
    (fs2 : List GoField), applyJson kvs fs = .ok fs2 →
    fs2.map tagKind = fs.map tagKind
  | [], _, fs2, h => by
    simp only [applyJson] at h
    cases h
    rfl
  | f :: fs, kvs, fs2, h => by
    simp only [applyJson] at h
    cases hpk : parseTagKey f.tag with
    | error e => simp only [hpk] at h; exact Except.noConfusion h
    | ok kr =>
      obtain ⟨tagVal, r⟩ := kr
      simp only [hpk] at h
      cases hjl : jlookup kvs tagVal with
      | none =>
        simp only [hjl] at h
        cases hrec : applyJson kvs fs with
        | error e => simp only [hrec] at h; exact Except.noConfusion h
        | ok l =>
          simp only [hrec, Except.ok.injEq] at h
          rw [← h]
          have htail := applyJson_tagKind fs kvs l hrec
          simp [tagKind, htail]
      | some jv =>
        simp only [hjl] at h
        cases hval : f.val with
        | vstr s =>
          simp only [hval] at h
          cases jv with
          | jstr s2 =>
            cases hrec : applyJson kvs fs with
            | error e => simp only [hrec] at h; exact Except.noConfusion h
            | ok l =>
              simp only [hrec, Except.ok.injEq] at h
              rw [← h]
              have htail := applyJson_tagKind fs kvs l hrec
              simp [tagKind, GoVal.kind, hval, htail]
          | jbool b => simp at h
          | jnum n => simp at h
          | jnull => simp at h
          | jother => simp at h
        | vbool b =>
          simp only [hval] at h
          cases jv with
          | jbool b2 =>
            cases hrec : applyJson kvs fs with
            | error e => simp only [hrec] at h; exact Except.noConfusion h
            | ok l =>
              simp only [hrec, Except.ok.injEq] at h
              rw [← h]
              have htail := applyJson_tagKind fs kvs l hrec
              simp [tagKind, GoVal.kind, hval, htail]
          | jstr s2 => simp at h
          | jnum n => simp at h
          | jnull => simp at h
          | jother => simp at h
        | vfloat =>
          simp only [hval] at h
          cases hrec : applyJson kvs fs with
          | error e => simp only [hrec] at h; exact Except.noConfusion h
          | ok l =>
            simp only [hrec, Except.ok.injEq] at h
            rw [← h]
            have htail := applyJson_tagKind fs kvs l hrec
            simp [tagKind, htail]
        | vother =>
          simp only [hval] at h
          cases hrec : applyJson kvs fs with
          | error e => simp only [hrec] at h; exact Except.noConfusion h
          | ok l =>
            simp only [hrec, Except.ok.injEq] at h
            rw [← h]
            have htail := applyJson_tagKind fs kvs l hrec
            simp [tagKind, htail]

theorem jsonPhase_tagKind (d : String → Option (List (String × JVal))) (arg0 : String)
    (found : Bool) (fs fs2 : List GoField) (h : jsonPhase d arg0 found fs = .ok fs2) :
    fs2.map tagKind = fs.map tagKind := by
  unfold jsonPhase at h
  split at h
  · cases hd : d arg0 with
    | none => rw [hd] at h; simp at h
    | some kvs => rw [hd] at h; exact applyJson_tagKind fs kvs fs2 h
  · cases h; rfl

theorem tagKind_exists_of_map_eq {fs fs2 : List GoField}
    (h : fs2.map tagKind = fs.map tagKind) :
    ∀ g ∈ fs2, ∃ f ∈ fs, f.tag = g.tag ∧ f.val.kind = g.val.kind := by
  intro g hg
  have hmem : tagKind g ∈ fs.map tagKind := h ▸ List.mem_map_of_mem tagKind hg
  obtain ⟨f, hf, hfg⟩ := List.mem_map.mp hmem
  exact ⟨f, hf, congrArg Prod.fst hfg, congrArg Prod.snd hfg⟩

theorem validate_boolRequired : ∀ (fs : List GoField) (acc : List String),
    (∀ f ∈ fs, ∃ k r, parseTagKey f.tag = .ok (k, r)) →
    (∃ f ∈ fs, f.val.kind = .kbool ∧ ∃ k, parseTagKey f.tag = .ok (k, true)) →
    validate fs acc = .error .boolCannotBeRequired
  | [], _, _, hex => by
    obtain ⟨f, hf, -⟩ := hex
    exact absurd hf (List.not_mem_nil f)
  | g :: fs, acc, htags, hex => by
    obtain ⟨k, r, hpk⟩ := htags g (List.mem_cons_self g fs)
    simp only [validate, hpk]
    obtain ⟨f, hf, hkind, k2, hpk2⟩ := hex
    rcases List.mem_cons.mp hf with hfg | hftail
    · subst hfg
      rw [hpk] at hpk2
      obtain ⟨-, hr⟩ := Prod.mk.injEq .. ▸ (Except.ok.injEq .. ▸ hpk2)
      rw [← hr]
      cases hval : f.val with
      | vbool b => simp
      | vstr s => rw [hval] at hkind; simp [GoVal.kind] at hkind
      | vfloat => rw [hval] at hkind; simp [GoVal.kind] at hkind
      | vother => rw [hval] at hkind; simp [GoVal.kind] at hkind
    · have htail : ∀ f ∈ fs, ∃ k r, parseTagKey f.tag = .ok (k, r) :=
        fun f hf => htags f (List.mem_cons_of_mem g hf)
      have hexr : ∃ f ∈ fs, f.val.kind = .kbool ∧ ∃ k, parseTagKey f.tag = .ok (k, true) :=
        ⟨f, hftail, hkind, k2, hpk2⟩
      cases hr : r with
      | false =>
        simp only [Bool.false_eq_true, if_false]
        exact validate_boolRequired fs acc htail hexr
      | true =>
        simp only [if_true]
        cases hval : g.val with
        | vstr s => exact validate_boolRequired fs _ htail hexr
        | vbool b => simp
        | vfloat => exact validate_boolRequired fs acc htail hexr
        | vother => exact validate_boolRequired fs acc htail hexr

theorem validate_noBoolRequired : ∀ (fs : List GoField) (acc : List String),
    (∀ f ∈ fs, ∃ k r, parseTagKey f.tag = .ok (k, r)) →
    (∀ f ∈ fs, ∀ k, parseTagKey f.tag = .ok (k, true) → f.val.kind ≠ .kbool) →
    validate fs acc = .ok (acc ++ missingOf fs)
  | [], acc, _, _ => by simp [validate, missingOf]
  | g :: fs, acc, htags, hnb => by
    obtain ⟨k, r, hpk⟩ := htags g (List.mem_cons_self g fs)
    have htail : ∀ f ∈ fs, ∃ k r, parseTagKey f.tag = .ok (k, r) :=
      fun f hf => htags f (List.mem_cons_of_mem g hf)
    have hnbtail : ∀ f ∈ fs, ∀ k, parseTagKey f.tag = .ok (k, true) → f.val.kind ≠ .kbool :=
      fun f hf => hnb f (List.mem_cons_of_mem g hf)
    simp only [validate, missingOf, List.filterMap_cons, hpk]
    cases hr : r with
    | false =>
      simp only [Bool.false_eq_true, if_false]
      rw [validate_noBoolRequired fs acc htail hnbtail]
      cases hval : g.val with
      | vstr s => simp [missingOf]
      | vbool b => simp [missingOf]
      | vfloat => simp [missingOf]
      | vother => simp [missingOf]
    | true =>
      simp only [if_true]
      cases hval : g.val with
      | vstr s =>
        by_cases hs : s = ""
        · subst hs
          simp only []
          rw [if_pos trivial, validate_noBoolRequired fs (acc ++ [k]) htail hnbtail]
          simp [missingOf, List.append_assoc]
        · simp only [hs, if_false, if_neg hs]
          rw [validate_noBoolRequired fs acc htail hnbtail]
          simp [missingOf, hs]
      | vbool b =>
        have := hnb g (List.mem_cons_self g fs) k (hr ▸ hpk)
        rw [hval] at this
        simp [GoVal.kind] at this
      | vfloat =>
        rw [validate_noBoolRequired fs acc htail hnbtail]
        simp [missingOf]
      | vother =>
        rw [validate_noBoolRequired fs acc htail hnbtail]
        simp [missingOf]

theorem setVal_id : ∀ (m : FlagMap) (name : String) (v : FlagVal),
    (∀ p ∈ m, p.1 = name → p.2 = v) → setVal m name v = m
  | [], _, _, _ => rfl
  | (k0, v0) :: m, name, v, h => by
    have htail := setVal_id m name v (fun p hp => h p (List.mem_cons_of_mem _ hp))
    simp only [setVal]
    by_cases hk : k0 = name
    · have hv0 : v0 = v := h (k0, v0) (List.mem_cons_self _ _) hk
      rw [if_pos hk, htail, hv0]
    · rw [if_neg hk, htail]

theorem takeWhile_neq_eqsign : ∀ (l : List Char), (∀ c ∈ l, c ≠ '=') →
    (l ++ ['=']).takeWhile (fun x => x != '=') = l
  | [], _ => rfl
  | c :: l, h => by
    have hc : (c != '=') = true := by
      simpa using h c (List.mem_cons_self _ _)
    simp only [List.cons_append, List.takeWhile_cons, hc, if_true]
    rw [takeWhile_neq_eqsign l (fun x hx => h x (List.mem_cons_of_mem _ hx))]

theorem dropWhile_neq_eqsign : ∀ (l : List Char), (∀ c ∈ l, c ≠ '=') →
    (l ++ ['=']).dropWhile (fun x => x != '=') = ['=']
  | [], _ => rfl
  | c :: l, h => by
    have hc : (c != '=') = true := by
      simpa using h c (List.mem_cons_self _ _)
    simp only [List.cons_append, List.dropWhile_cons, hc, if_true]
    exact dropWhile_neq_eqsign l (fun x hx => h x (List.mem_cons_of_mem _ hx))

theorem any_eqsign_append (l : List Char) : (l ++ ['=']).any (fun x => x == '=') = true := by
  simp [List.any_append]

theorem splitFlagToken_empty_value (name : String) (n0 : Char) (ns : List Char)
    (hname : name.data = n0 :: ns) (hn0 : n0 ≠ '-')
    (hne : ∀ c ∈ name.data, c ≠ '=') :
    splitFlagToken ('-' :: (name.data ++ ['='])) = .flag name true "" := by
  have hn0e : n0 ≠ '=' := hne n0 (hname ▸ List.mem_cons_self n0 ns)
  rw [hname]
  rw [hname] at hne
  simp only [List.cons_append, splitFlagToken]
  rw [if_neg (by rintro ⟨h1, -⟩; exact hn0 h1)]
  simp only [if_neg hn0]
  rw [if_neg (by rintro (h1 | h1); exacts [hn0 h1, hn0e h1])]
  have htw : (n0 :: (ns ++ ['='])).takeWhile (fun x => x != '=') = n0 :: ns := by
    rw [show n0 :: (ns ++ ['=']) = (n0 :: ns) ++ ['='] from rfl]
    exact takeWhile_neq_eqsign (n0 :: ns) hne
  have hdw : (n0 :: (ns ++ ['='])).dropWhile (fun x => x != '=') = ['='] := by
    rw [show n0 :: (ns ++ ['=']) = (n0 :: ns) ++ ['='] from rfl]
    exact dropWhile_neq_eqsign (n0 :: ns) hne
  have hany : (n0 :: (ns ++ ['='])).any (fun x => x == '=') = true := by
    rw [show n0 :: (ns ++ ['=']) = (n0 :: ns) ++ ['='] from rfl]
    exact any_eqsign_append (n0 :: ns)
  rw [htw, hdw, hany, ← hname]
  rfl

theorem parseLoopAux_empty_value_skip (m : FlagMap) (rest : List String)
    (tok name : String) (n0 : Char) (ns : List Char)
    (htok : tok.data = '-' :: (name.data ++ ['=']))
    (hname : name.data = n0 :: ns) (hn0 : n0 ≠ '-')
    (hne : ∀ c ∈ name.data, c ≠ '=')
    (hlook : lookupFlag m name = some (.str ""))
    (hall : ∀ p ∈ m, p.1 = name → p.2 = .str "") :
    parseLoopAux m none (tok :: rest) = parseLoopAux m none rest := by
  have hsplit := splitFlagToken_empty_value name n0 ns hname hn0 hne
  simp only [parseLoopAux, htok, hsplit, hlook]
  rw [setVal_id m name (.str "") hall, if_pos trivial]

theorem configurePipeline_eq (d : String → Option (List (String × JVal)))
    (args : List String) (fields : List GoField) (m0 m : FlagMap) (ps : List String)
    (fields1 : List GoField) (found : Bool)
    (hr : registerFlags fields [] = .ok m0)
    (hp : parseLoop m0 args = .ok (m, ps))
    (hb : bindFlags m fields false = .ok (fields1, found)) :
    Configure d false args (.ptrTo (.structV fields)) =
      match jsonPhase d (ps.headD "") found fields1 with
      | .error (.ferr e) => .err e (.ptrTo (.structV fields1))
      | .error (.fpanic msg) => .panicked msg
      | .ok fields2 => finishValidate fields2 := by
  simp only [Configure, Bool.false_eq_true, if_false, configurePipeline, hr, hp, hb]

theorem splitOnCommaAux_no_comma : ∀ (cs acc : List Char), (∀ c ∈ cs, c ≠ ',') →
    splitOnCommaAux cs acc = [acc.reverse ++ cs]
  | [], acc, _ => by simp [splitOnCommaAux]
  | c :: cs, acc, h => by
    have hc : c ≠ ',' := h c (List.mem_cons_self _ _)
    simp only [splitOnCommaAux, if_neg hc]
    rw [splitOnCommaAux_no_comma cs (c :: acc) (fun x hx => h x (List.mem_cons_of_mem _ hx))]
    simp

theorem goSplitComma_no_comma (tag : String) (h : ∀ c ∈ tag.data, c ≠ ',') :
    goSplitComma tag = [tag] := by
  simp only [goSplitComma, splitOnCommaAux_no_comma tag.data [] h]
  rfl

/-- C4: the tag parser rejects the empty tag with `NoTagValue`; a tag with no
comma yields the whole tag as the name with `required = false`; a tag whose
comma-split has exactly two tokens yields `(first, required = true)` when the
second token is exactly `"required"` and fails with `InvalidTagOption`
otherwise; a split into more than two tokens fails with `TooManyTagValues`.
The parse is a pure function. -/
theorem parseTagKey_tag_grammar (tag a b : String) :
    (tag = "" → parseTagKey tag = .error .noTagValue)
    ∧ (tag ≠ "" → (∀ c ∈ tag.data, c ≠ ',') → parseTagKey tag = .ok (tag, false))
    ∧ (tag ≠ "" → goSplitComma tag = [a] → parseTagKey tag = .ok (a, false))
    ∧ (tag ≠ "" → goSplitComma tag = [a, b] → b = "required" → parseTagKey tag = .ok (a, true))
    ∧ (tag ≠ "" → goSplitComma tag = [a, b] → b ≠ "required" →
        parseTagKey tag = .error .structTagInvalidOption)
    ∧ (tag ≠ "" → 2 < (goSplitComma tag).length → parseTagKey tag = .error .tooManyTagValues) := by
  refine ⟨?_, ?_, ?_, ?_, ?_, ?_⟩
  · intro h
    simp [parseTagKey, h]
  · intro h hnc
    simp [parseTagKey, h, goSplitComma_no_comma tag hnc]
  · intro h hs
    simp [parseTagKey, h, hs]
  · intro h hs hb
    simp [parseTagKey, h, hs, hb, requiredTagKey]
  · intro h hs hb
    simp [parseTagKey, h, hs, requiredTagKey, hb]
  · intro h hlen
    simp only [parseTagKey, if_neg h]
    cases hs : goSplitComma tag with
    | nil => rfl
    | cons x t1 =>
      cases t1 with
      | nil => rw [hs] at hlen; simp at hlen
      | cons y t2 =>
        cases t2 with
        | nil => rw [hs] at hlen; simp at hlen
        | cons z t3 => simp [hs]

/-- Witness for C4 at the concrete tags used by the package's callers. -/
theorem parseTagKey_tag_grammar_witness :
    parseTagKey "district_id,required" = .ok ("district_id", true)
    ∧ parseTagKey "collection" = .ok ("collection", false)
    ∧ parseTagKey "district_id,x" = .error .structTagInvalidOption
    ∧ parseTagKey "district_id,required,EXTRA" = .error .tooManyTagValues := by
  refine ⟨?_, ?_, ?_, ?_⟩
  · exact (parseTagKey_tag_grammar "district_id,required" "district_id" "required").2.2.2.1
      (by decide) (by decide) rfl
  · exact (parseTagKey_tag_grammar "collection" "" "").2.1 (by decide) (by decide)
  · exact (parseTagKey_tag_grammar "district_id,x" "district_id" "x").2.2.2.2.1
      (by decide) (by decide) (by decide)
  · exact (parseTagKey_tag_grammar "district_id,required,EXTRA" "" "").2.2.2.2.2
      (by decide) (by decide)

/-- C6 (amended): whenever the process-wide flag state was already consumed
before the call, `Configure` returns `FlagAlreadyParsed` before doing anything
else; but `Configure` itself parses only a freshly created private flag set
and leaves the process-wide parsed state unchanged, so merely calling
`Configure` twice does not by itself make the second call fail. -/
theorem configure_flagParsed_guard (d : String → Option (List (String × JVal)))
    (args : List String) (cfg : ConfigArg) (p : Bool) :
    Configure d true args cfg = .err .flagParsedErr cfg
    ∧ (ConfigureSt d args cfg p).2 = p :=
  ⟨rfl, rfl⟩

/-- C6 counterexample: a second `Configure` call, run with the global parsed
state left by a first call, succeeds instead of failing with
`FlagAlreadyParsed`. -/
theorem configure_second_call_not_flagParsed :
    (ConfigureSt (fun _ => none) []
        (.ptrTo (.structV [⟨true, "collection", .vstr ""⟩]))
        ((ConfigureSt (fun _ => none) []
          (.ptrTo (.structV [⟨true, "collection", .vstr ""⟩])) false).2)).1
      = .ok (.ptrTo (.structV [⟨true, "collection", .vstr ""⟩]))
    ∧ (ConfigureSt (fun _ => none) []
        (.ptrTo (.structV [⟨true, "collection", .vstr ""⟩]))
        ((ConfigureSt (fun _ => none) []
          (.ptrTo (.structV [⟨true, "collection", .vstr ""⟩])) false).2)).1
      ≠ .err .flagParsedErr (.ptrTo (.structV [⟨true, "collection", .vstr ""⟩])) := by
  exact ⟨rfl, by decide⟩

/-- C7: during the JSON fallback, a key whose JSON value does not have the
field's declared type (here a number for a string field) makes the unchecked
type assertion panic instead of returning a recoverable error. -/
theorem configure_json_type_mismatch_panics :
    Configure
      (fun s => if s = "\x7b\"district_id\":5\x7d" then some [("district_id", .jnum 5)] else none)
      false ["\x7b\"district_id\":5\x7d"]
      (.ptrTo (.structV [⟨true, "district_id", .vstr ""⟩]))
      = .panicked strAssertPanicMsg := by
  rfl

/-- C9 (amended): an argument that is not a pointer gets the `StructOnly`
error with the argument untouched; but a pointer whose target is not a struct
is not caught — the reflection call `NumField` panics instead. -/
theorem configure_struct_only_checks (d : String → Option (List (String × JVal)))
    (args : List String) (v : GoValue) :
    Configure d false args (.nonPtr v) = .err .structOnly (.nonPtr v)
    ∧ Configure d false args (.ptrTo .otherV) = .panicked numFieldPanicMsg :=
  ⟨rfl, rfl⟩

/-- C9 counterexample: a pointer to a non-struct makes `Configure` panic
rather than return `StructOnly`. -/
theorem configure_ptr_nonstruct_not_structOnly :
    Configure (fun _ => none) false [] (.ptrTo .otherV) = .panicked numFieldPanicMsg
    ∧ Configure (fun _ => none) false [] (.ptrTo .otherV)
      ≠ .err .structOnly (.ptrTo .otherV) := by
  exact ⟨rfl, by decide⟩

/-- C2: a bool field's flag is registered with the field's current value as
default; it counts as found exactly when the parsed value differs from that
default; the parsed value is always written back; consequently `-dry=true`
sets the field true for any prior value, `-dry=false` sets it false (also
against a pre-populated `true`), and omitting the flag on a record
pre-populated with `true` leaves it true. -/
theorem configure_bool_flag_semantics :
    (∀ (fields : List GoField) (m : FlagMap) (f : GoField) (b : Bool),
      registerFlags fields [] = .ok m → f ∈ fields → f.val = .vbool b →
      ∃ k r, parseTagKey f.tag = .ok (k, r) ∧ lookupFlag m k = some (.boolv b))
    ∧ (∀ (m : FlagMap) (cs fd r b v : Bool) (tag k : String),
      parseTagKey tag = .ok (k, r) → lookupFlag m k = some (.boolv v) →
      bindFlags m [⟨cs, tag, .vbool b⟩] fd = .ok ([⟨cs, tag, .vbool v⟩], fd || (v != b)))
    ∧ (∀ (d : String → Option (List (String × JVal))) (b : Bool),
      Configure d false ["-dry=true"] (.ptrTo (.structV [⟨true, "dry", .vbool b⟩]))
        = .ok (.ptrTo (.structV [⟨true, "dry", .vbool true⟩])))
    ∧ (∀ (d : String → Option (List (String × JVal))) (b : Bool),
      Configure d false ["-dry=false"] (.ptrTo (.structV [⟨true, "dry", .vbool b⟩]))
        = .ok (.ptrTo (.structV [⟨true, "dry", .vbool false⟩])))
    ∧ (∀ (d : String → Option (List (String × JVal))),
      Configure d false [] (.ptrTo (.structV [⟨true, "dry", .vbool true⟩]))
        = .ok (.ptrTo (.structV [⟨true, "dry", .vbool true⟩]))) := by
  refine ⟨?_, ?_, ?_, ?_, ?_⟩
  · intro fields m f b hr hf hv
    exact registerFlags_bool_default fields [] m f b hr hf hv
  · intro m cs fd r b v tag k hpk hlk
    simp [bindFlags, hpk, hlk]
  · intro d b
    cases b <;> rfl
  · intro d b
    cases b <;> rfl
  · intro d
    rfl

/-- Witness for C2: concrete registration, binding and full runs on a
one-bool-field record. -/
theorem configure_bool_flag_semantics_witness :
    registerFlags [⟨true, "dry", .vbool true⟩] [] = .ok [("dry", .boolv true)]
    ∧ (∃ k r, parseTagKey "dry" = .ok (k, r)
        ∧ lookupFlag [("dry", .boolv true)] k = some (.boolv true))
    ∧ bindFlags [("dry", .boolv false)] [⟨true, "dry", .vbool true⟩] false
        = .ok ([⟨true, "dry", .vbool false⟩], false || (false != true))
    ∧ Configure (fun _ => none) false ["-dry=false"]
        (.ptrTo (.structV [⟨true, "dry", .vbool true⟩]))
        = .ok (.ptrTo (.structV [⟨true, "dry", .vbool false⟩])) := by
  refine ⟨by decide, ?_, ?_, ?_⟩
  · exact configure_bool_flag_semantics.1 [⟨true, "dry", .vbool true⟩] [("dry", .boolv true)]
      ⟨true, "dry", .vbool true⟩ true (by decide) (by decide) rfl
  · exact configure_bool_flag_semantics.2.1 [("dry", .boolv false)] true false false true false
      "dry" "dry" (by decide) (by decide)
  · exact configure_bool_flag_semantics.2.2.2.1 (fun _ => none) true

/-- C1: once any flag was found, the JSON fallback is skipped entirely — the
decoder is never consulted and the bound fields go straight to validation,
even when a non-empty positional argument is present; when zero flags were
found and the first positional argument is non-empty, the positional argument
is decoded and the decoded object is applied to the matching fields (a decode
failure being `InvalidJSON`); with an empty first positional argument the
fallback is skipped as well. -/
theorem configure_flag_precedence
    (args : List String) (fields fields1 : List GoField) (m0 m : FlagMap)
    (ps : List String) (found : Bool)
    (hr : registerFlags fields [] = .ok m0)
    (hp : parseLoop m0 args = .ok (m, ps))
    (hb : bindFlags m fields false = .ok (fields1, found)) :
    (found = true → ∀ d, Configure d false args (.ptrTo (.structV fields))
        = finishValidate fields1)
    ∧ (found = true → ∀ d1 d2,
        Configure d1 false args (.ptrTo (.structV fields))
          = Configure d2 false args (.ptrTo (.structV fields)))
    ∧ (found = false → ps.headD "" = "" → ∀ d,
        Configure d false args (.ptrTo (.structV fields)) = finishValidate fields1)
    ∧ (found = false → ps.headD "" ≠ "" → ∀ d kvs fields2, d (ps.headD "") = some kvs →
        applyJson kvs fields1 = .ok fields2 →
        Configure d false args (.ptrTo (.structV fields)) = finishValidate fields2)
    ∧ (found = false → ps.headD "" ≠ "" → ∀ d, d (ps.headD "") = none →
        Configure d false args (.ptrTo (.structV fields))
          = .err .invalidJSON (.ptrTo (.structV fields1))) := by
  have key : ∀ d, Configure d false args (.ptrTo (.structV fields)) =
      match jsonPhase d (ps.headD "") found fields1 with
      | .error (.ferr e) => .err e (.ptrTo (.structV fields1))
      | .error (.fpanic msg) => .panicked msg
      | .ok fields2 => finishValidate fields2 :=
    fun d => configurePipeline_eq d args fields m0 m ps fields1 found hr hp hb
  have hjtrue : found = true → ∀ d, jsonPhase d (ps.headD "") found fields1 = .ok fields1 := by
    intro hf d
    subst hf
    simp [jsonPhase]
  refine ⟨?_, ?_, ?_, ?_, ?_⟩
  · intro hf d
    rw [key d, hjtrue hf d]
  · intro hf d1 d2
    rw [key d1, key d2, hjtrue hf d1, hjtrue hf d2]
  · intro hf h0 d
    have hj : jsonPhase d (ps.headD "") found fields1 = .ok fields1 := by
      subst hf
      unfold jsonPhase
      rw [if_neg (by rintro ⟨-, hne⟩; exact hne h0)]
    rw [key d, hj]
  · intro hf h0 d kvs fields2 hd hja
    have hj : jsonPhase d (ps.headD "") found fields1 = .ok fields2 := by
      subst hf
      unfold jsonPhase
      rw [if_pos ⟨rfl, h0⟩]
      simp only [hd]
      exact hja
    rw [key d, hj]
  · intro hf h0 d hd
    have hj : jsonPhase d (ps.headD "") found fields1 = .error (.ferr .invalidJSON) := by
      subst hf
      unfold jsonPhase
      rw [if_pos ⟨rfl, h0⟩]
      simp only [hd]
    rw [key d, hj]

/-- Witness for C1: a found string flag together with a non-empty positional
argument goes straight to validation, for an arbitrary decoder. -/
theorem configure_flag_precedence_witness :
    registerFlags [⟨true, "collection", .vstr ""⟩] [] = .ok [("collection", .str "")]
    ∧ parseLoop [("collection", .str "")] ["-collection=x", "rest"]
        = .ok ([("collection", .str "x")], ["rest"])
    ∧ bindFlags [("collection", .str "x")] [⟨true, "collection", .vstr ""⟩] false
        = .ok ([⟨true, "collection", .vstr "x"⟩], true)
    ∧ Configure (fun _ => none) false ["-collection=x", "rest"]
        (.ptrTo (.structV [⟨true, "collection", .vstr ""⟩]))
        = finishValidate [⟨true, "collection", .vstr "x"⟩] := by
  refine ⟨by decide, by decide, by decide, ?_⟩
  exact (configure_flag_precedence ["-collection=x", "rest"]
      [⟨true, "collection", .vstr ""⟩] [⟨true, "collection", .vstr "x"⟩]
      [("collection", .str "")] [("collection", .str "x")] ["rest"] true
      (by decide) (by decide) (by decide)).1 rfl (fun _ => none)

/-- C5 (amended): for every field, `Configure` checks writability (failing
with `NotAReference`) and that the declared type is string or bool; a
floating-point field is not accepted — it is rejected with the
unsupported-field-type error (`ErrStringAndBoolOnly`), exactly like any other
non-string non-bool type; conversely a successful registration pass implies
every field was writable with a string or bool type. -/
theorem configure_supported_field_kinds
    (d : String → Option (List (String × JVal))) (args : List String)
    (pre post : List GoField) (f : GoField) (m M : FlagMap)
    (hpre : registerFlags pre [] = .ok m) :
    (f.canSet = false →
      Configure d false args (.ptrTo (.structV (pre ++ f :: post)))
        = .err .notReference (.ptrTo (.structV (pre ++ f :: post))))
    ∧ (f.canSet = true → f.val = .vfloat →
      Configure d false args (.ptrTo (.structV (pre ++ f :: post)))
        = .err .stringAndBoolOnly (.ptrTo (.structV (pre ++ f :: post))))
    ∧ (f.canSet = true → f.val = .vother →
      Configure d false args (.ptrTo (.structV (pre ++ f :: post)))
        = .err .stringAndBoolOnly (.ptrTo (.structV (pre ++ f :: post))))
    ∧ (registerFlags (pre ++ f :: post) [] = .ok M →
      f.canSet = true ∧ (f.val.kind = .kstring ∨ f.val.kind = .kbool)) := by
  have hreg : registerFlags (pre ++ f :: post) [] = registerFlags (f :: post) m := by
    simp only [registerFlags_append pre (f :: post) [], hpre]
  refine ⟨?_, ?_, ?_, ?_⟩
  · intro hcs
    simp [Configure, configurePipeline, hreg, registerFlags, regField, hcs]
  · intro hcs hval
    simp [Configure, configurePipeline, hreg, registerFlags, regField, hcs, hval]
  · intro hcs hval
    simp [Configure, configurePipeline, hreg, registerFlags, regField, hcs, hval]
  · intro hM
    rw [hreg] at hM
    simp only [registerFlags] at hM
    cases hrf : regField f m with
    | error e => rw [hrf] at hM; simp at hM
    | ok m2 =>
      obtain ⟨hcs, k, r, -, -, hcase⟩ := regField_ok f m m2 hrf
      refine ⟨hcs, ?_⟩
      rcases hcase with ⟨s, hv, -⟩ | ⟨b, hv, -⟩
      · left
        rw [hv]
        rfl
      · right
        rw [hv]
        rfl

/-- C5 counterexample: a record containing a floating-point field is rejected
with the unsupported-field-type error instead of being accepted and bound. -/
theorem configure_float_field_rejected :
    Configure (fun _ => none) false [] (.ptrTo (.structV [⟨true, "threshold", .vfloat⟩]))
      = .err .stringAndBoolOnly (.ptrTo (.structV [⟨true, "threshold", .vfloat⟩]))
    ∧ Configure (fun _ => none) false [] (.ptrTo (.structV [⟨true, "threshold", .vfloat⟩]))
      ≠ .ok (.ptrTo (.structV [⟨true, "threshold", .vfloat⟩])) := by
  exact ⟨rfl, by decide⟩

/-- Witness for C5 (amended): the checks applied to a one-float-field
record. -/
theorem configure_supported_field_kinds_witness :
    registerFlags [] [] = .ok []
    ∧ Configure (fun _ => none) false []
        (.ptrTo (.structV ([] ++ ⟨true, "threshold", .vfloat⟩ :: [])))
      = .err .stringAndBoolOnly
          (.ptrTo (.structV ([] ++ ⟨true, "threshold", .vfloat⟩ :: []))) := by
  refine ⟨rfl, ?_⟩
  exact (configure_supported_field_kinds (fun _ => none) [] [] []
      ⟨true, "threshold", .vfloat⟩ [] [] rfl).2.1 rfl rfl

/-- C8: whenever the pipeline reaches validation (registration, flag parse,
binding and the JSON fallback all succeed), a record containing a bool field
whose tag marks it required makes `Configure` fail with
`BooleanCannotBeRequired`, regardless of the bool field's value; the error is
produced at validation time, after binding, so it carries the record in its
post-binding state. -/
theorem configure_bool_required_rejected
    (d : String → Option (List (String × JVal))) (args : List String)
    (fields fields1 fields2 : List GoField) (m0 m : FlagMap) (ps : List String) (found : Bool)
    (hr : registerFlags fields [] = .ok m0)
    (hp : parseLoop m0 args = .ok (m, ps))
    (hb : bindFlags m fields false = .ok (fields1, found))
    (hj : jsonPhase d (ps.headD "") found fields1 = .ok fields2)
    (hex : ∃ f ∈ fields, (∃ b, f.val = .vbool b) ∧ ∃ k, parseTagKey f.tag = .ok (k, true)) :
    Configure d false args (.ptrTo (.structV fields)) =
      .err .boolCannotBeRequired (.ptrTo (.structV fields2)) := by
  have key := configurePipeline_eq d args fields m0 m ps fields1 found hr hp hb
  have hmap : fields2.map tagKind = fields.map tagKind := by
    rw [jsonPhase_tagKind d _ found fields1 fields2 hj,
      bindFlags_tagKind fields m false found fields1 hb]
  have htags : ∀ g ∈ fields2, ∃ k r, parseTagKey g.tag = .ok (k, r) := by
    intro g hg
    obtain ⟨f, hf, htag, -⟩ := tagKind_exists_of_map_eq hmap g hg
    obtain ⟨k, r, hpk⟩ := registerFlags_tags_ok fields [] m0 hr f hf
    exact ⟨k, r, htag ▸ hpk⟩
  have hex2 : ∃ g ∈ fields2, g.val.kind = .kbool ∧ ∃ k, parseTagKey g.tag = .ok (k, true) := by
    obtain ⟨f, hf, ⟨b, hvb⟩, k, hpk⟩ := hex
    obtain ⟨g, hg, htag, hkind⟩ := tagKind_exists_of_map_eq hmap.symm f hf
    refine ⟨g, hg, ?_, k, ?_⟩
    · rw [hkind, hvb]
      rfl
    · rw [htag]
      exact hpk
  rw [key, hj]
  simp [finishValidate, validate_boolRequired fields2 [] htags hex2]

/-- Witness for C8: a record holding one required bool field. -/
theorem configure_bool_required_rejected_witness :
    jsonPhase (fun _ => none) (List.headD [] "") false [⟨true, "dry,required", .vbool false⟩]
        = .ok [⟨true, "dry,required", .vbool false⟩]
    ∧ Configure (fun _ => none) false []
        (.ptrTo (.structV [⟨true, "dry,required", .vbool false⟩]))
      = .err .boolCannotBeRequired
          (.ptrTo (.structV [⟨true, "dry,required", .vbool false⟩])) := by
  refine ⟨by decide, ?_⟩
  exact configure_bool_required_rejected (fun _ => none) []
    [⟨true, "dry,required", .vbool false⟩] [⟨true, "dry,required", .vbool false⟩]
    [⟨true, "dry,required", .vbool false⟩]
    [("dry", .boolv false)] [("dry", .boolv false)] [] false
    (by decide) (by decide) (by decide) (by decide)
    ⟨⟨true, "dry,required", .vbool false⟩, by decide, ⟨false, rfl⟩, "dry", by decide⟩

/-- C3 (amended): whenever the pipeline reaches validation and no field of
the record is a bool marked required (such a field preempts everything with
`BooleanCannotBeRequired`), `Configure` fails with `MissingRequiredFields`
carrying exactly the parameter names of the required string fields still
empty after binding, in field declaration order, if there are any, and
validation succeeds otherwise; the error message is rendered from the
template `"Missing required fields: %s"`. -/
theorem configure_missing_required_fields
    (d : String → Option (List (String × JVal))) (args : List String)
    (fields fields1 fields2 : List GoField) (m0 m : FlagMap) (ps : List String) (found : Bool)
    (hr : registerFlags fields [] = .ok m0)
    (hp : parseLoop m0 args = .ok (m, ps))
    (hb : bindFlags m fields false = .ok (fields1, found))
    (hj : jsonPhase d (ps.headD "") found fields1 = .ok fields2)
    (hnb : ∀ f ∈ fields, ∀ k, parseTagKey f.tag = .ok (k, true) → f.val.kind ≠ .kbool) :
    Configure d false args (.ptrTo (.structV fields)) =
      (if missingOf fields2 = [] then .ok (.ptrTo (.structV fields2))
       else .err (.missingRequiredFields (missingOf fields2)) (.ptrTo (.structV fields2)))
    ∧ errMessage (.missingRequiredFields ["district_id"])
        = "Missing required fields: [district_id]" := by
  have key := configurePipeline_eq d args fields m0 m ps fields1 found hr hp hb
  have hmap : fields2.map tagKind = fields.map tagKind := by
    rw [jsonPhase_tagKind d _ found fields1 fields2 hj,
      bindFlags_tagKind fields m false found fields1 hb]
  have htags : ∀ g ∈ fields2, ∃ k r, parseTagKey g.tag = .ok (k, r) := by
    intro g hg
    obtain ⟨f, hf, htag, -⟩ := tagKind_exists_of_map_eq hmap g hg
    obtain ⟨k, r, hpk⟩ := registerFlags_tags_ok fields [] m0 hr f hf
    exact ⟨k, r, htag ▸ hpk⟩
  have hnb2 : ∀ g ∈ fields2, ∀ k, parseTagKey g.tag = .ok (k, true) → g.val.kind ≠ .kbool := by
    intro g hg k hpk
    obtain ⟨f, hf, htag, hkind⟩ := tagKind_exists_of_map_eq hmap g hg
    rw [← hkind]
    exact hnb f hf k (htag ▸ hpk)
  have hval := validate_noBoolRequired fields2 [] htags hnb2
  refine ⟨?_, by decide⟩
  rw [key, hj]
  simp only [finishValidate, hval, List.nil_append]
  by_cases hmiss : missingOf fields2 = []
  · simp [hmiss]
  · have hlen : 0 < (missingOf fields2).length := List.length_pos.mpr hmiss
    simp [hmiss, hlen]

/-- Witness for C3 (amended): a required string field left empty yields the
missing-fields error listing exactly it. -/
theorem configure_missing_required_fields_witness :
    jsonPhase (fun _ => none) (List.headD [] "") false
        [⟨true, "district_id,required", .vstr ""⟩, ⟨true, "collection", .vstr ""⟩]
      = .ok [⟨true, "district_id,required", .vstr ""⟩, ⟨true, "collection", .vstr ""⟩]
    ∧ missingOf [⟨true, "district_id,required", .vstr ""⟩, ⟨true, "collection", .vstr ""⟩]
      = ["district_id"]
    ∧ Configure (fun _ => none) false []
        (.ptrTo (.structV [⟨true, "district_id,required", .vstr ""⟩,
          ⟨true, "collection", .vstr ""⟩]))
      = .err (.missingRequiredFields ["district_id"])
          (.ptrTo (.structV [⟨true, "district_id,required", .vstr ""⟩,
            ⟨true, "collection", .vstr ""⟩])) := by
  refine ⟨by decide, by decide, ?_⟩
  have h := (configure_missing_required_fields (fun _ => none) []
    [⟨true, "district_id,required", .vstr ""⟩, ⟨true, "collection", .vstr ""⟩]
    [⟨true, "district_id,required", .vstr ""⟩, ⟨true, "collection", .vstr ""⟩]
    [⟨true, "district_id,required", .vstr ""⟩, ⟨true, "collection", .vstr ""⟩]
    [("district_id", .str ""), ("collection", .str "")]
    [("district_id", .str ""), ("collection", .str "")] [] false
    (by decide) (by decide) (by decide) (by decide)
    (by
      intro f hf k hpk
      simp only [List.mem_cons, List.not_mem_nil, or_false] at hf
      rcases hf with rfl | rfl <;> decide)).1
  simpa using h

/-- C3 counterexample: a record whose required string field is left empty but
which also contains a required bool field fails with
`BooleanCannotBeRequired`, not with `MissingRequiredFields`. -/
theorem configure_missing_required_fields_counterexample :
    Configure (fun _ => none) false []
        (.ptrTo (.structV [⟨true, "district_id,required", .vstr ""⟩,
          ⟨true, "dry,required", .vbool false⟩]))
      = .err .boolCannotBeRequired
          (.ptrTo (.structV [⟨true, "district_id,required", .vstr ""⟩,
            ⟨true, "dry,required", .vbool false⟩]))
    ∧ Configure (fun _ => none) false []
        (.ptrTo (.structV [⟨true, "district_id,required", .vstr ""⟩,
          ⟨true, "dry,required", .vbool false⟩]))
      ≠ .err (.missingRequiredFields ["district_id"])
          (.ptrTo (.structV [⟨true, "district_id,required", .vstr ""⟩,
            ⟨true, "dry,required", .vbool false⟩])) := by
  exact ⟨rfl, by decide⟩

/-- C10: on a record of string fields, a string flag explicitly supplied with
an empty value (a token `-name=`, parsed while the flag's value is still its
empty default) produces exactly the same result and the same final record
state as running `Configure` with that token omitted: the empty parsed value
neither counts as a found flag nor overwrites the field, so the two argument
lists are indistinguishable to the whole pipeline, JSON fallback included. -/
theorem configure_empty_string_flag_noop
    (d : String → Option (List (String × JVal))) (fields : List GoField)
    (pre post : List String) (m0 m1 : FlagMap) (tok name : String)
    (n0 : Char) (ns : List Char)
    ( _hstr : ∀ f ∈ fields, ∃ s, f.val = .vstr s)
    (hr : registerFlags fields [] = .ok m0)
    (hpre : ∀ rest, parseLoop m0 (pre ++ rest) = parseLoop m1 rest)
    (htok : tok.data = '-' :: (name.data ++ ['=']))
    (hname : name.data = n0 :: ns) (hn0 : n0 ≠ '-')
    (hne : ∀ c ∈ name.data, c ≠ '=')
    (hlook : lookupFlag m1 name = some (.str ""))
    (hall : ∀ p ∈ m1, p.1 = name → p.2 = .str "") :
    Configure d false (pre ++ tok :: post) (.ptrTo (.structV fields)) =
      Configure d false (pre ++ post) (.ptrTo (.structV fields)) := by
  have hparse : parseLoop m0 (pre ++ tok :: post) = parseLoop m0 (pre ++ post) := by
    rw [hpre (tok :: post), hpre post]
    exact parseLoopAux_empty_value_skip m1 post tok name n0 ns htok hname hn0 hne hlook hall
  simp only [Configure, Bool.false_eq_true, if_false, configurePipeline, hr, hparse]

/-- Witness for C10: `-collection=` behaves exactly like no argument at
all. -/
theorem configure_empty_string_flag_noop_witness :
    registerFlags [⟨true, "collection", .vstr ""⟩] [] = .ok [("collection", .str "")]
    ∧ "-collection=".data = '-' :: ("collection".data ++ ['='])
    ∧ Configure (fun _ => none) false ["-collection="]
        (.ptrTo (.structV [⟨true, "collection", .vstr ""⟩]))
      = Configure (fun _ => none) false []
        (.ptrTo (.structV [⟨true, "collection", .vstr ""⟩])) := by
  refine ⟨by decide, by decide, ?_⟩
  exact configure_empty_string_flag_noop (fun _ => none) [⟨true, "collection", .vstr ""⟩]
    [] [] [("collection", .str "")] [("collection", .str "")] "-collection=" "collection"
    'c' "ollection".data
    (by
      intro f hf
      simp only [List.mem_cons, List.not_mem_nil, or_false] at hf
      exact ⟨"", by rw [hf]⟩)
    (by decide)
    (fun rest => rfl)
    (by decide) (by decide) (by decide) (by decide) (by decide) (by decide)
